import Mathlib

/-
Verification development for the PostScript/PDF low-level object parser
(babeldoc/pdfminer/psparser.py): a byte tokenizer implemented as a resumable
state machine, and a stack-based object parser layered on top of it.

Bytes are modelled as natural numbers (each < 256 on all reachable inputs);
byte strings as `List Nat`.  The parser's mutable object state is modelled as
an explicit record threaded through every operation, and Python exceptions as
explicit error results that carry the state at the raise point.
-/

namespace PSP

/-- Python's `\s` on bytes: space, tab, LF, VT, FF, CR (regex `SPC`). -/
def isSpace (c : Nat) : Bool :=
  c = 32 || c = 9 || c = 10 || c = 11 || c = 12 || c = 13

/-- ASCII decimal digit (`bytes.isdigit`, regex `END_NUMBER` complement). -/
def isDigit (c : Nat) : Bool := 48 ≤ c && c ≤ 57

/-- ASCII letter (`bytes.isalpha` on a single byte). -/
def isAlpha (c : Nat) : Bool := (65 ≤ c && c ≤ 90) || (97 ≤ c && c ≤ 122)

/-- Hexadecimal digit byte (regex `HEX`). -/
def isHexDigit (c : Nat) : Bool :=
  isDigit c || (65 ≤ c && c ≤ 70) || (97 ≤ c && c ≤ 102)

/-- Octal digit byte (regex `OCT_STRING`). -/
def isOctal (c : Nat) : Bool := 48 ≤ c && c ≤ 55

/-- Delimiter set of regexes `END_LITERAL` and `END_KEYWORD`:
`# / % [ ] ( ) < > { }` or whitespace. -/
def isEndLiteral (c : Nat) : Bool :=
  c = 35 || c = 47 || c = 37 || c = 91 || c = 93 || c = 40 || c = 41 ||
  c = 60 || c = 62 || c = 123 || c = 125 || isSpace c

/-- Match set of regex `END_STRING`: `(`, `)`, backslash. -/
def isEndString (c : Nat) : Bool := c = 40 || c = 41 || c = 92

/-- Match set of regex `END_HEX_STRING`: anything that is neither whitespace
nor a hex digit. -/
def isEndHexStr (c : Nat) : Bool := !(isSpace c || isHexDigit c)

/-- Scan a list for the first byte satisfying `p`, reporting its index
counted from `k`. -/
def findIdxFrom (p : Nat → Bool) : List Nat → Nat → Option Nat
  | [], _ => none
  | c :: rest, k => if p c then some k else findIdxFrom p rest (k + 1)

/-- Least index `j ≥ i` with `p (s.getD j 0)`, i.e. `regex.search(s, i)` for a
single-byte-class regex. -/
def findFrom (p : Nat → Bool) (s : List Nat) (i : Nat) : Option Nat :=
  findIdxFrom p (s.drop i) i

/-- Python slice `s[i:j]` (for `j ≤ i` this is empty, as in Python). -/
def slice (s : List Nat) (i j : Nat) : List Nat := (s.drop i).take (j - i)

/-- Numeric value of one hex digit byte. -/
def hexDigitVal (c : Nat) : Nat :=
  if c ≤ 57 then c - 48 else if c ≤ 70 then c - 55 else c - 87

/-- `int(digits, 16)` on a list of hex digit bytes. -/
def hexNum (l : List Nat) : Nat := l.foldl (fun a c => 16 * a + hexDigitVal c) 0

/-- `int(digits, 8)` on a list of octal digit bytes. -/
def octNum (l : List Nat) : Nat := l.foldl (fun a c => 8 * a + (c - 48)) 0

/-- `int(digits)` on a list of decimal digit bytes. -/
def decNum (l : List Nat) : Nat := l.foldl (fun a c => 10 * a + (c - 48)) 0

/-- Python `int(accumulator)` for the number-state accumulator, whose shape is
an optional single sign byte followed by decimal digits (the tokenizer seeds it
with `-`, `+` or a digit and extends it with digits only).  `int` fails, and
the token is silently dropped, exactly when no digit is present. -/
def parseIntAcc (l : List Nat) : Option Int :=
  match l with
  | 45 :: rest =>
      if rest ≠ [] && rest.all isDigit then some (-(decNum rest : Int)) else none
  | 43 :: rest =>
      if rest ≠ [] && rest.all isDigit then some (decNum rest : Int) else none
  | _ => if l ≠ [] && l.all isDigit then some (decNum l : Int) else none

/-- Python `float(accumulator)` succeeds for the float-state accumulator (an
optional sign, digits, one dot, digits) exactly when it contains at least one
digit; `float(".")`, `float("-.")` raise `ValueError` and the token is
dropped. -/
def floatOk (l : List Nat) : Bool := l.any isDigit

/-- UTF-8 decode (CPython `str(b, "utf-8")`, strict): rejects truncated
sequences, stray continuation bytes, overlong encodings, surrogates and code
points above `0x10FFFF`. -/
def utf8Chars : List Nat → Option (List Char)
  | [] => some []
  | c :: rest =>
    if c < 128 then
      match utf8Chars rest with
      | some cs => some (Char.ofNat c :: cs)
      | none => none
    else if 194 ≤ c && c ≤ 223 then
      match rest with
      | c2 :: rest2 =>
        if 128 ≤ c2 && c2 ≤ 191 then
          match utf8Chars rest2 with
          | some cs => some (Char.ofNat ((c - 192) * 64 + (c2 - 128)) :: cs)
          | none => none
        else none
      | [] => none
    else if 224 ≤ c && c ≤ 239 then
      match rest with
      | c2 :: c3 :: rest3 =>
        let lo2 : Nat := if c = 224 then 160 else 128
        let hi2 : Nat := if c = 237 then 159 else 191
        if lo2 ≤ c2 && c2 ≤ hi2 && 128 ≤ c3 && c3 ≤ 191 then
          match utf8Chars rest3 with
          | some cs =>
              some (Char.ofNat ((c - 224) * 4096 + (c2 - 128) * 64 + (c3 - 128)) :: cs)
          | none => none
        else none
      | _ => none
    else if 240 ≤ c && c ≤ 244 then
      match rest with
      | c2 :: c3 :: c4 :: rest4 =>
        let lo2 : Nat := if c = 240 then 144 else 128
        let hi2 : Nat := if c = 244 then 143 else 191
        if lo2 ≤ c2 && c2 ≤ hi2 && 128 ≤ c3 && c3 ≤ 191 && 128 ≤ c4 && c4 ≤ 191 then
          match utf8Chars rest4 with
          | some cs =>
              some (Char.ofNat ((c - 240) * 262144 + (c2 - 128) * 4096 +
                    (c3 - 128) * 64 + (c4 - 128)) :: cs)
          | none => none
        else none
      | _ => none
    else none

/-- `str(b, "utf-8")` as an optional `String`. -/
def utf8Decode? (l : List Nat) : Option String :=
  match utf8Chars l with
  | some cs => some (String.mk cs)
  | none => none

/-- The key under which a `PSLiteral` name is interned: the UTF-8 text when
the accumulated bytes decode, otherwise the raw bytes
(`PSBaseParser._parse_literal`). -/
inductive NameKey where
  | txt (s : String)
  | raw (b : List Nat)
deriving DecidableEq

/-- `PSBaseParserToken`: int, float, bool, interned literal, interned keyword,
or byte string.  A float token carries its source accumulator bytes (the
lexeme); no claim depends on IEEE evaluation of the lexeme. -/
inductive Token where
  | int (n : Int)
  | real (acc : List Nat)
  | bool (b : Bool)
  | lit (k : NameKey)
  | kwd (w : List Nat)
  | bytes (b : List Nat)
deriving DecidableEq

/-- The tokenizer state register `self._parse1`: which `_parse_*` method is
installed as the active state handler. -/
inductive PState where
  | main | comment | literal | literalHex | number | float | keyword
  | string | string1 | wopen | wclose | hexstring
deriving DecidableEq

/-- Error kinds raised by the parser: `PSEOF`, `PSSyntaxError`, `PSTypeError`,
`PSException`, Python `AssertionError` (the octal-escape assert), `IndexError`
(`list.pop` on an empty context), and an artificial fuel marker for the
modelled loops. -/
inductive Err where
  | eofE | synE | typeE | psE | assertE | idxE | fuelE
deriving DecidableEq

/-- `PSBaseParser` object state.  `fdata` is the content of the underlying
seekable stream `self.fp` and `fpos` its cursor; the remaining fields are the
attributes of the Python object.  `paren`, `hexAcc`, `octAcc` model the
attributes `self.paren`, `self.hex`, `self.oct`, which are created on first
use and, notably, are NOT reset by `seek`. -/
structure TkState where
  fdata : List Nat
  fpos : Nat
  bufpos : Nat
  buf : List Nat
  charpos : Nat
  parse1 : PState
  curtoken : List Nat
  curtokenpos : Nat
  tokens : List (Nat × Token)
  eof : Bool
  paren : Nat
  hexAcc : List Nat
  octAcc : List Nat
deriving DecidableEq

/-- Result of one state-handler call: the returned character position and the
mutated parser object, or a raised exception together with the object state at
the raise point. -/
inductive PRes where
  | ok (i : Nat) (st : TkState)
  | err (e : Err) (st : TkState)
deriving DecidableEq

/-- `PSBaseParser._add_token`. -/
def addToken (st : TkState) (t : Token) : TkState :=
  { st with tokens := st.tokens ++ [(st.curtokenpos, t)] }

/-- `PSBaseParser._parse_main`. -/
def parseMain (s : List Nat) (i : Nat) (st : TkState) : PRes :=
  match findFrom (fun c => !isSpace c) s i with
  | none => .ok s.length st
  | some j =>
    let c := s.getD j 0
    let st := { st with curtokenpos := st.bufpos + j }
    if c = 37 then .ok (j + 1) { st with curtoken := [37], parse1 := .comment }
    else if c = 47 then .ok (j + 1) { st with curtoken := [], parse1 := .literal }
    else if c = 45 || c = 43 || isDigit c then
      .ok (j + 1) { st with curtoken := [c], parse1 := .number }
    else if c = 46 then .ok (j + 1) { st with curtoken := [c], parse1 := .float }
    else if isAlpha c then .ok (j + 1) { st with curtoken := [c], parse1 := .keyword }
    else if c = 40 then
      .ok (j + 1) { st with curtoken := [], paren := 1, parse1 := .string }
    else if c = 60 then .ok (j + 1) { st with curtoken := [], parse1 := .wopen }
    else if c = 62 then .ok (j + 1) { st with curtoken := [], parse1 := .wclose }
    else if c = 0 then .ok (j + 1) st
    else .ok (j + 1) (addToken st (.kwd [c]))

/-- `PSBaseParser._parse_comment` (the comment is discarded). -/
def parseComment (s : List Nat) (i : Nat) (st : TkState) : PRes :=
  match findFrom (fun c => c = 13 || c = 10) s i with
  | none => .ok s.length { st with curtoken := st.curtoken ++ s.drop i }
  | some j => .ok j { st with curtoken := st.curtoken ++ slice s i j, parse1 := .main }

/-- `PSBaseParser._parse_literal`. -/
def parseLiteral (s : List Nat) (i : Nat) (st : TkState) : PRes :=
  match findFrom isEndLiteral s i with
  | none => .ok s.length { st with curtoken := st.curtoken ++ s.drop i }
  | some j =>
    let st := { st with curtoken := st.curtoken ++ slice s i j }
    let c := s.getD j 0
    if c = 35 then .ok (j + 1) { st with hexAcc := [], parse1 := .literalHex }
    else
      let nm : NameKey :=
        match utf8Decode? st.curtoken with
        | some t => .txt t
        | none => .raw st.curtoken
      .ok j { addToken st (.lit nm) with parse1 := .main }

/-- `PSBaseParser._parse_literal_hex`. -/
def parseLiteralHex (s : List Nat) (i : Nat) (st : TkState) : PRes :=
  let c := s.getD i 0
  if isHexDigit c && st.hexAcc.length < 2 then
    .ok (i + 1) { st with hexAcc := st.hexAcc ++ [c] }
  else if st.hexAcc = [] then .ok i { st with parse1 := .literal }
  else .ok i { st with curtoken := st.curtoken ++ [hexNum st.hexAcc], parse1 := .literal }

/-- `PSBaseParser._parse_number`. -/
def parseNumber (s : List Nat) (i : Nat) (st : TkState) : PRes :=
  match findFrom (fun c => !isDigit c) s i with
  | none => .ok s.length { st with curtoken := st.curtoken ++ s.drop i }
  | some j =>
    let st := { st with curtoken := st.curtoken ++ slice s i j }
    let c := s.getD j 0
    if c = 46 then .ok (j + 1) { st with curtoken := st.curtoken ++ [c], parse1 := .float }
    else
      match parseIntAcc st.curtoken with
      | some n => .ok j { addToken st (.int n) with parse1 := .main }
      | none => .ok j { st with parse1 := .main }

/-- `PSBaseParser._parse_float` (a malformed lexeme is silently dropped). -/
def parseFloat (s : List Nat) (i : Nat) (st : TkState) : PRes :=
  match findFrom (fun c => !isDigit c) s i with
  | none => .ok s.length { st with curtoken := st.curtoken ++ s.drop i }
  | some j =>
    let st := { st with curtoken := st.curtoken ++ slice s i j }
    if floatOk st.curtoken then .ok j { addToken st (.real st.curtoken) with parse1 := .main }
    else .ok j { st with parse1 := .main }

/-- `PSBaseParser._parse_keyword`: `true`/`false` become booleans, everything
else an interned keyword. -/
def parseKeyword (s : List Nat) (i : Nat) (st : TkState) : PRes :=
  match findFrom isEndLiteral s i with
  | none => .ok s.length { st with curtoken := st.curtoken ++ s.drop i }
  | some j =>
    let st := { st with curtoken := st.curtoken ++ slice s i j }
    let t : Token :=
      if st.curtoken = [116, 114, 117, 101] then .bool true
      else if st.curtoken = [102, 97, 108, 115, 101] then .bool false
      else .kwd st.curtoken
    .ok j { addToken st t with parse1 := .main }

/-- `PSBaseParser._parse_string`. -/
def parseString (s : List Nat) (i : Nat) (st : TkState) : PRes :=
  match findFrom isEndString s i with
  | none => .ok s.length { st with curtoken := st.curtoken ++ s.drop i }
  | some j =>
    let st := { st with curtoken := st.curtoken ++ slice s i j }
    let c := s.getD j 0
    if c = 92 then .ok (j + 1) { st with octAcc := [], parse1 := .string1 }
    else if c = 40 then
      .ok (j + 1) { st with paren := st.paren + 1, curtoken := st.curtoken ++ [c] }
    else
      let st := { st with paren := st.paren - 1 }
      if st.paren = 0 then .ok (j + 1) { addToken st (.bytes st.curtoken) with parse1 := .main }
      else .ok (j + 1) { st with curtoken := st.curtoken ++ [c] }

/-- The `ESC_STRING` table of single-character escapes. -/
def escVal? (c : Nat) : Option Nat :=
  if c = 98 then some 8
  else if c = 116 then some 9
  else if c = 110 then some 10
  else if c = 102 then some 12
  else if c = 114 then some 13
  else if c = 40 then some 40
  else if c = 41 then some 41
  else if c = 92 then some 92
  else none

/-- `PSBaseParser._parse_string_1`: escapes inside a literal string.  The
octal branch models `assert chrcode < 256` as an `AssertionError` result. -/
def parseString1 (s : List Nat) (i : Nat) (st : TkState) : PRes :=
  let c := s.getD i 0
  if isOctal c && st.octAcc.length < 3 then
    .ok (i + 1) { st with octAcc := st.octAcc ++ [c] }
  else if st.octAcc ≠ [] then
    let chrcode := octNum st.octAcc
    if chrcode < 256 then
      .ok i { st with curtoken := st.curtoken ++ [chrcode], parse1 := .string }
    else .err .assertE st
  else
    match escVal? c with
    | some v => .ok (i + 1) { st with curtoken := st.curtoken ++ [v], parse1 := .string }
    | none =>
      if c = 13 && decide (i + 1 < s.length) && s.getD (i + 1) 0 = 10 then
        .ok (i + 2) { st with parse1 := .string }
      else .ok (i + 1) { st with parse1 := .string }

/-- `PSBaseParser._parse_wopen`: `<<` emits the dict-begin keyword, anything
else switches to the hex-string state without consuming the byte. -/
def parseWopen (s : List Nat) (i : Nat) (st : TkState) : PRes :=
  let c := s.getD i 0
  if c = 60 then .ok (i + 1) { addToken st (.kwd [60, 60]) with parse1 := .main }
  else .ok i { st with parse1 := .hexstring }

/-- `PSBaseParser._parse_wclose`: `>>` emits the dict-end keyword; a lone `>`
emits nothing and control returns to the main state at the following byte. -/
def parseWclose (s : List Nat) (i : Nat) (st : TkState) : PRes :=
  let c := s.getD i 0
  if c = 62 then .ok (i + 1) { addToken st (.kwd [62, 62]) with parse1 := .main }
  else .ok i { st with parse1 := .main }

/-- `HEX_PAIR.sub` applied to the whitespace-free hex accumulator: consecutive
pairs of hex digits become one byte each, and a trailing lone digit is decoded
on its own (regex alternative `.`), i.e. as the low nibble.  The accumulator
reaching this function contains only hex digits, since `END_HEX_STRING` bounds
it to whitespace-or-hex and the whitespace has been stripped. -/
def hexPairs : List Nat → List Nat
  | a :: b :: rest => (16 * hexDigitVal a + hexDigitVal b) :: hexPairs rest
  | [d] => [hexDigitVal d]
  | [] => []

/-- The ByteString payload `_parse_hexstring` builds from its accumulator:
`HEX_PAIR.sub(..., SPC.sub(b"", curtoken))`. -/
def hexTokenBytes (body : List Nat) : List Nat :=
  hexPairs (body.filter (fun c => !isSpace c))

/-- `PSBaseParser._parse_hexstring`. -/
def parseHexstring (s : List Nat) (i : Nat) (st : TkState) : PRes :=
  match findFrom isEndHexStr s i with
  | none => .ok s.length { st with curtoken := st.curtoken ++ s.drop i }
  | some j =>
    let st := { st with curtoken := st.curtoken ++ slice s i j }
    .ok j { addToken st (.bytes (hexTokenBytes st.curtoken)) with parse1 := .main }

/-- One call of the installed state handler `self._parse1(s, i)`. -/
def parseStep (p : PState) (s : List Nat) (i : Nat) (st : TkState) : PRes :=
  match p with
  | .main => parseMain s i st
  | .comment => parseComment s i st
  | .literal => parseLiteral s i st
  | .literalHex => parseLiteralHex s i st
  | .number => parseNumber s i st
  | .float => parseFloat s i st
  | .keyword => parseKeyword s i st
  | .string => parseString s i st
  | .string1 => parseString1 s i st
  | .wopen => parseWopen s i st
  | .wclose => parseWclose s i st
  | .hexstring => parseHexstring s i st

/-- Result of `fillbuf`: a refreshed state, or `PSEOF` together with the state
at the raise point (`bufpos` and `buf` are mutated before the raise). -/
inductive FbRes where
  | ok (st : TkState)
  | eofF (st : TkState)
deriving DecidableEq

/-- `PSBaseParser.fillbuf`: no-op while `charpos` is inside the buffer,
otherwise read the next chunk of up to `BUFSIZ = 4096` bytes; an empty read
raises `PSEOF`. -/
def fillbuf (st : TkState) : FbRes :=
  if st.charpos < st.buf.length then .ok st
  else
    let newbuf := (st.fdata.drop st.fpos).take 4096
    let st := { st with bufpos := st.fpos, buf := newbuf }
    if newbuf = [] then .eofF st
    else .ok { st with fpos := st.fpos + newbuf.length, charpos := 0 }

/-- Result of `nexttoken`: a `(pos, token)` pair plus the mutated parser, or a
raised exception plus the parser state at the raise. -/
inductive TkRes where
  | tok (t : Nat × Token) (st : TkState)
  | err (e : Err) (st : TkState)
deriving DecidableEq

/-- The `while not self._tokens` loop of `nexttoken`, with explicit fuel for
the loop (the fuel marker `Err.fuelE` is distinct from every real error).
On a `PSEOF` from `fillbuf`, a synthetic one-byte `\n` is fed to the active
state handler; `eof` is then set sticky, the flushed token (if any) is
returned, and otherwise the `PSEOF` is re-raised. -/
def nexttokenLoop : Nat → TkState → TkRes
  | fuel, st =>
    match st.tokens with
    | t :: rest => .tok t { st with tokens := rest }
    | [] =>
      match fuel with
      | 0 => .err .fuelE st
      | fuel' + 1 =>
        match fillbuf st with
        | .ok st1 =>
          match parseStep st1.parse1 st1.buf st1.charpos st1 with
          | .ok i2 st2 => nexttokenLoop fuel' { st2 with charpos := i2 }
          | .err e st2 => .err e st2
        | .eofF st1 =>
          match parseStep st1.parse1 [10] 0 st1 with
          | .ok i2 st2 =>
            let st3 := { st2 with charpos := i2, eof := true }
            match st3.tokens with
            | [] => .err .eofE st3
            | t :: rest => .tok t { st3 with tokens := rest }
          | .err e st2 => .err e st2

/-- `PSBaseParser.nexttoken`: raises `PSEOF` immediately when `eof` is
already set, otherwise runs the token loop. -/
def nexttoken (fuel : Nat) (st : TkState) : TkRes :=
  if st.eof then .err .eofE st else nexttokenLoop fuel st

/-- `PSBaseParser.seek(pos)`: repositions the stream and resets the transient
tokenizer state (buffer, accumulator, pending tokens) and the `eof` flag.
Note that the lazily created attributes `paren`, `hex`, `oct` are NOT reset,
exactly as in the source. -/
def seekTk (st : TkState) (pos : Nat) : TkState :=
  { st with fpos := pos, bufpos := pos, buf := [], charpos := 0,
            parse1 := .main, curtoken := [], curtokenpos := 0,
            tokens := [], eof := false }

/-- `PSBaseParser.__init__`: bind the stream, clear `eof`, `seek(0)`.  The
lazily created attributes start absent; they are modelled as zero/empty. -/
def initTk (data : List Nat) : TkState :=
  seekTk
    { fdata := data, fpos := 0, bufpos := 0, buf := [], charpos := 0,
      parse1 := .main, curtoken := [], curtokenpos := 0, tokens := [],
      eof := false, paren := 0, hexAcc := [], octAcc := [] } 0

/-- The `(pos, token)` sequence obtained by calling `nexttoken` repeatedly
(at most `n` times, each call with loop fuel `fuel`) until it raises. -/
def tokenizeAll : Nat → Nat → TkState → List (Nat × Token)
  | 0, _, _ => []
  | n + 1, fuel, st =>
    match nexttoken fuel st with
    | .tok t st1 => t :: tokenizeAll n fuel st1
    | .err _ _ => []

/-- Error kind of a `nexttoken` result, if any. -/
def TkRes.errKind : TkRes → Option Err
  | .tok _ _ => none
  | .err e _ => some e

/-- No pending token is the single-byte keyword `>`. -/
def notGtTok (l : List (Nat × Token)) : Prop :=
  ∀ pt ∈ l, pt.2 ≠ Token.kwd [62]

/-- Run invariant of the tokenizer: in the keyword state the accumulator is
non-empty and starts with a letter (it is seeded by the letter branch of the
main state and only ever extended), and no pending token is a lone-`>`
keyword. -/
def InvTk (st : TkState) : Prop :=
  (st.parse1 = PState.keyword →
    ∃ c cs, st.curtoken = c :: cs ∧ isAlpha c = true) ∧
  notGtTok st.tokens

/-- The `paren` attribute as far as the state machine can observe it: only
the two string states ever read it. -/
def parenOf (st : TkState) : Nat :=
  match st.parse1 with
  | PState.string => st.paren
  | PState.string1 => st.paren
  | _ => 0

/-- The `oct` accumulator as far as the state machine can observe it. -/
def octOf (st : TkState) : List Nat :=
  match st.parse1 with
  | PState.string1 => st.octAcc
  | _ => []

/-- The `hex` accumulator as far as the state machine can observe it. -/
def hexOf (st : TkState) : List Nat :=
  match st.parse1 with
  | PState.literalHex => st.hexAcc
  | _ => []

/-- Observational equivalence of tokenizer states: all fields agree except
possibly the lazily created attributes `paren`, `hex`, `oct`, which must
agree only while the active state actually reads them (`paren` in the string
states, `oct` in the string-escape state, `hex` in the name-hex state).
`seek` does not reset those three attributes, so the state after `seek(0)` is
related — not equal — to a freshly constructed parser. -/
def Rel (a b : TkState) : Prop :=
  a.fdata = b.fdata ∧ a.fpos = b.fpos ∧ a.bufpos = b.bufpos ∧ a.buf = b.buf ∧
  a.charpos = b.charpos ∧ a.parse1 = b.parse1 ∧ a.curtoken = b.curtoken ∧
  a.curtokenpos = b.curtokenpos ∧ a.tokens = b.tokens ∧ a.eof = b.eof ∧
  parenOf a = parenOf b ∧ octOf a = octOf b ∧ hexOf a = hexOf b

/-- Lifting of `Rel` to handler results: same new position or error, related
states. -/
def PResRel : PRes → PRes → Prop
  | .ok i1 a1, .ok i2 b1 => i1 = i2 ∧ Rel a1 b1
  | .err e1 a1, .err e2 b1 => e1 = e2 ∧ Rel a1 b1
  | _, _ => False

/-- Lifting of `Rel` to `fillbuf` results. -/
def FbResRel : FbRes → FbRes → Prop
  | .ok a1, .ok b1 => Rel a1 b1
  | .eofF a1, .eofF b1 => Rel a1 b1
  | _, _ => False

/-- Lifting of `Rel` to `nexttoken` results: identical token or error,
related states. -/
def TkResRel : TkRes → TkRes → Prop
  | .tok t1 a1, .tok t2 b1 => t1 = t2 ∧ Rel a1 b1
  | .err e1 a1, .err e2 b1 => e1 = e2 ∧ Rel a1 b1
  | _, _ => False

/-- `PSSymbolTable`: interning table keyed by payload equality.  Identity of
the interned Python objects is modelled by a fresh numeric id allocated at
first interning; `intern` returns the id of the existing entry when the
payload is already a key of the dictionary. -/
structure SymTable (α : Type) where
  entries : List (α × Nat)
  next : Nat

/-- Dictionary lookup by payload (Python `name in self.dict` / subscript). -/
def symLookup [DecidableEq α] : List (α × Nat) → α → Option Nat
  | [], _ => none
  | (k, v) :: rest, p => if k = p then some v else symLookup rest p

/-- `PSSymbolTable.intern`: return the existing instance for `name` when one
exists, otherwise construct a fresh instance and record it. -/
def intern [DecidableEq α] (t : SymTable α) (p : α) : Nat × SymTable α :=
  match symLookup t.entries p with
  | some id => (id, t)
  | none => (t.next, { entries := t.entries ++ [(p, t.next)], next := t.next + 1 })

/-- The operand-stack object type of `PSStackParser`: tokens that get pushed,
plus `list` (arrays AND procs are both pushed as plain Python lists), `dict`,
and `null` for the extension slot (`ExtraT`) filled by subclasses — the
Python `None` filtered out during dict construction. -/
inductive Obj where
  | int (n : Int)
  | real (acc : List Nat)
  | bool (b : Bool)
  | name (k : NameKey)
  | bytes (b : List Nat)
  | list (l : List Obj)
  | dict (d : List (String × Obj))
  | null

/-- `v is None` — the null-marker identity test in the dict comprehension. -/
def Obj.isNull : Obj → Bool
  | .null => true
  | _ => false

/-- CPython `bytes.__repr__`, used by `literal_name` as the lossless fallback
rendering `str(x.name)` for a name whose bytes do not decode as UTF-8:
printable ASCII stays, `\t \n \r \\` and the quote are escaped, every other
byte becomes a `\xHH` escape; double quotes are used when the payload has a
single quote but no double quote. -/
def pyBytesReprChar (q : Nat) (c : Nat) : List Char :=
  if c = 92 then ['\\', '\\']
  else if c = 9 then ['\\', 't']
  else if c = 10 then ['\\', 'n']
  else if c = 13 then ['\\', 'r']
  else if c = q then ['\\', Char.ofNat q]
  else if 32 ≤ c && c ≤ 126 then [Char.ofNat c]
  else
    let hx : Nat → Char := fun n => if n < 10 then Char.ofNat (48 + n) else Char.ofNat (87 + n)
    ['\\', 'x', hx (c / 16), hx (c % 16)]

/-- CPython `repr` of a bytes object (see `pyBytesReprChar`). -/
def pyBytesRepr (b : List Nat) : String :=
  let q : Nat := if b.contains 39 && !b.contains 34 then 34 else 39
  String.mk (['b', Char.ofNat q] ++ (b.flatMap (pyBytesReprChar q)) ++ [Char.ofNat q])

/-- Python `str(x)` for the objects that can sit on the operand stack; used
only by the lenient fallback branch of `literal_name` (never reached when the
key is a Name).  Reals render as their source lexeme. -/
def pyStrObj : Obj → String
  | .int n => toString n
  | .real acc => String.mk (acc.map Char.ofNat)
  | .bool b => if b then "True" else "False"
  | .name k => (match k with
      | .txt s => String.mk ('/' :: '\'' :: s.data ++ ['\''])
      | .raw b => String.mk ('/' :: (pyBytesRepr b).data))
  | .bytes b => pyBytesRepr b
  | .list _ => "[...]"
  | .dict _ => "{...}"
  | .null => "None"

/-- `literal_name(x)`: a `PSLiteral` name is rendered as text (decoding raw
bytes as UTF-8, falling back to the bytes repr); anything else raises
`PSTypeError` in strict mode and is coerced via `str` otherwise. -/
def literalName (strict : Bool) : Obj → Except Err String
  | .name (.txt s) => .ok s
  | .name (.raw b) =>
      match utf8Decode? b with
      | some s => .ok s
      | none => .ok (pyBytesRepr b)
  | x => if strict then .error .typeE else .ok (pyStrObj x)

/-- Structural worker for `choplist`; the first argument is a length bound on
the list, which strictly shrinks at every `drop n` with `0 < n`. -/
def choplistF (n : Nat) : Nat → List α → List (List α)
  | 0, _ => []
  | b + 1, l =>
    if 0 < n ∧ n ≤ l.length then l.take n :: choplistF n b (l.drop n)
    else []

/-- Modelled from the spec: `choplist(n, seq)` from `babeldoc.pdfminer.utils`
(the module is not part of the supplied sources) — consecutive
non-overlapping windows of length `n`; a trailing partial window is
dropped. -/
def choplist (n : Nat) (l : List α) : List (List α) := choplistF n (l.length + 1) l

/-- The `(k, v)` pairs traversed by the dict comprehension
`for (k, v) in choplist(2, objs)`. -/
def dictPairs (objs : List Obj) : List (Obj × Obj) :=
  (choplist 2 objs).filterMap fun w =>
    match w with
    | [k, v] => some (k, v)
    | _ => none

/-- Python `dict` insertion: an existing key keeps its slot and gets the new
value, a new key is appended. -/
def pyDictInsert : List (String × Obj) → String → Obj → List (String × Obj)
  | [], k, v => [(k, v)]
  | (k0, v0) :: rest, k, v =>
      if k0 = k then (k0, v) :: rest else (k0, v0) :: pyDictInsert rest k v

/-- Python `dict` subscript/`get`. -/
def pyDictGet : List (String × Obj) → String → Option Obj
  | [], _ => none
  | (k0, v0) :: rest, s => if k0 = s then some v0 else pyDictGet rest s

/-- The dict comprehension in `nextobject`, evaluated left to right:
null-valued pairs are filtered out before the key is coerced; surviving pairs
are inserted with Python-dict (last-wins) semantics. -/
def buildDict (strict : Bool) : List (Obj × Obj) → List (String × Obj) →
    Except Err (List (String × Obj))
  | [], d => .ok d
  | (k, v) :: rest, d =>
    if v.isNull then buildDict strict rest d
    else
      match literalName strict k with
      | .ok s => buildDict strict rest (pyDictInsert d s v)
      | .error e => .error e

/-- The dictionary built from the flat item list of a closed dict. -/
def dictFromItems (strict : Bool) (objs : List Obj) :
    Except Err (List (String × Obj)) :=
  buildDict strict (dictPairs objs) []

/-- Builder kinds: the strings `"a"`, `"d"`, `"p"` passed to
`start_type`/`end_type`. -/
inductive Kind where
  | a | d | p
deriving DecidableEq

/-- `PSStackParser` object state on top of the tokenizer: the suspended
builders `context` (innermost first; Python appends and pops at the end of
the list), the active builder kind/stack, and the completed results FIFO. -/
structure SPState where
  base : TkState
  context : List (Nat × Option Kind × List (Nat × Obj))
  curtype : Option Kind
  curstack : List (Nat × Obj)
  results : List (Nat × Obj)

/-- `PSStackParser.reset`. -/
def resetSp (sp : SPState) : SPState :=
  { sp with context := [], curtype := none, curstack := [], results := [] }

/-- `PSStackParser.__init__`. -/
def initSp (data : List Nat) : SPState :=
  resetSp { base := initTk data, context := [], curtype := none,
            curstack := [], results := [] }

/-- `PSStackParser.seek`: base-class seek followed by `reset`. -/
def seekSp (sp : SPState) (pos : Nat) : SPState :=
  resetSp { sp with base := seekTk sp.base pos }

/-- `PSStackParser.push` with a single entry. -/
def pushSp (sp : SPState) (e : Nat × Obj) : SPState :=
  { sp with curstack := sp.curstack ++ [e] }

/-- `PSStackParser.start_type`. -/
def startType (sp : SPState) (pos : Nat) (k : Kind) : SPState :=
  { sp with context := (pos, sp.curtype, sp.curstack) :: sp.context,
            curtype := some k, curstack := [] }

/-- Result of `end_type`: the builder's start position and flat item list plus
the state with the enclosing builder resumed, or the raised error
(`PSTypeError` on a kind mismatch — raised before any mutation — or
`IndexError` on an empty context, which the builder invariant makes
unreachable). -/
inductive EtRes where
  | ok (pos : Nat) (objs : List Obj) (sp : SPState)
  | err (e : Err) (sp : SPState)

/-- `PSStackParser.end_type`. -/
def endType (sp : SPState) (k : Kind) : EtRes :=
  if sp.curtype ≠ some k then .err .typeE sp
  else
    match sp.context with
    | [] => .err .idxE sp
    | (pos, t0, s0) :: rest =>
        .ok pos (sp.curstack.map Prod.snd)
          { sp with curtype := t0, curstack := s0, context := rest }

/-- Result of dispatching one token, or of a whole `nextobject` call. -/
inductive SPRes where
  | ok (r : Nat × Obj) (sp : SPState)
  | err (e : Err) (sp : SPState)

/-- Result of the per-token dispatch inside `nextobject`. -/
inductive StepRes where
  | ok (sp : SPState)
  | err (e : Err) (sp : SPState)

/-- The per-token dispatch of `nextobject`.  Normal tokens are pushed;
structural keywords open and close builders, with `PSTypeError` mismatches
suppressed in lenient mode; `>>` additionally enforces even item parity
(`PSSyntaxError`, never suppressed) and builds the dictionary; every other
keyword goes to the `do_keyword` hook, which is a no-op in this class.  The
source's final unknown-token branch (`do_keyword` then `raise PSException`)
has no counterpart here because `Token` covers exactly the shapes the
tokenizer can emit, making that branch unreachable. -/
def dispatch (strict : Bool) (sp : SPState) (pos : Nat) (t : Token) : StepRes :=
  match t with
  | .int n => .ok (pushSp sp (pos, .int n))
  | .real acc => .ok (pushSp sp (pos, .real acc))
  | .bool b => .ok (pushSp sp (pos, .bool b))
  | .lit k => .ok (pushSp sp (pos, .name k))
  | .bytes b => .ok (pushSp sp (pos, .bytes b))
  | .kwd w =>
    if w = [91] then .ok (startType sp pos .a)
    else if w = [93] then
      match endType sp .a with
      | .ok p objs sp1 => .ok (pushSp sp1 (p, .list objs))
      | .err .typeE sp1 => if strict then .err .typeE sp1 else .ok sp1
      | .err e sp1 => .err e sp1
    else if w = [60, 60] then .ok (startType sp pos .d)
    else if w = [62, 62] then
      match endType sp .d with
      | .ok p objs sp1 =>
        if objs.length % 2 ≠ 0 then .err .synE sp1
        else
          match dictFromItems strict objs with
          | .ok d => .ok (pushSp sp1 (p, .dict d))
          | .error .typeE => if strict then .err .typeE sp1 else .ok sp1
          | .error e => .err e sp1
      | .err .typeE sp1 => if strict then .err .typeE sp1 else .ok sp1
      | .err e sp1 => .err e sp1
    else if w = [123] then .ok (startType sp pos .p)
    else if w = [125] then
      match endType sp .p with
      | .ok p objs sp1 => .ok (pushSp sp1 (p, .list objs))
      | .err .typeE sp1 => if strict then .err .typeE sp1 else .ok sp1
      | .err e sp1 => .err e sp1
    else .ok sp

/-- `PSBaseParser.flush`, inherited unchanged by `PSStackParser`: a no-op
hook invoked at top-level boundaries. -/
def flushSp (sp : SPState) : SPState := sp

/-- `PSStackParser.nextobject`: pull tokens and dispatch until `results` is
non-empty, then pop its head.  After each token, continue when a builder is
still open, otherwise invoke the (no-op) `flush` hook. -/
def nextobject (strict : Bool) : Nat → Nat → SPState → SPRes
  | 0, _, sp => .err .fuelE sp
  | fuel + 1, tokfuel, sp =>
    match sp.results with
    | r :: rest => .ok r { sp with results := rest }
    | [] =>
      match nexttoken tokfuel sp.base with
      | .err e st1 => .err e { sp with base := st1 }
      | .tok (pos, t) st1 =>
        match dispatch strict { sp with base := st1 } pos t with
        | .err e sp1 => .err e sp1
        | .ok sp1 =>
          if sp1.context.isEmpty then nextobject strict fuel tokfuel (flushSp sp1)
          else nextobject strict fuel tokfuel sp1

/-- Error kind of a `nextobject` result, if any. -/
def SPRes.errKind : SPRes → Option Err
  | .ok _ _ => none
  | .err e _ => some e

/-- Final parser state of a `nextobject` result. -/
def SPRes.state : SPRes → SPState
  | .ok _ sp => sp
  | .err _ sp => sp

/-- A concrete parser state for the C5 witness: input `ab` fully consumed,
keyword state holding the accumulator `ab`. -/
def exStKw : TkState :=
  { fdata := [97, 98], fpos := 2, bufpos := 0, buf := [97, 98], charpos := 2,
    parse1 := .keyword, curtoken := [97, 98], curtokenpos := 0, tokens := [],
    eof := false, paren := 0, hexAcc := [], octAcc := [] }

/-- The state `exStKw` reaches after the synthetic end-of-stream flush. -/
def exStKw2 : TkState :=
  { exStKw with bufpos := 2, buf := [], parse1 := PState.main,
                tokens := [(0, Token.kwd [97, 98])] }

/-- The bytes of `b"<< /Key 1 /Flag true >>"`. -/
def inpDictOk : List Nat :=
  [60, 60, 32, 47, 75, 101, 121, 32, 49, 32, 47, 70, 108, 97, 103, 32,
   116, 114, 117, 101, 32, 62, 62]

/-- The bytes of `b"<< /K 1 /V >>"`. -/
def inpDictOdd : List Nat :=
  [60, 60, 32, 47, 75, 32, 49, 32, 47, 86, 32, 62, 62]

/-- Does `literal_name` (with the given strict flag) render key `k` as the
text `s`? -/
def keyVal (strict : Bool) (k : Obj) (s : String) : Bool :=
  match literalName strict k with
  | .ok t => decide (t = s)
  | .error _ => false

/-- The value of the last pair whose value is not the null marker and whose
key coerces to `s`, scanning left to right. -/
def lastNonNull (strict : Bool) (ps : List (Obj × Obj)) (s : String) : Option Obj :=
  ps.foldl (fun acc kv => if !kv.2.isNull && keyVal strict kv.1 s then some kv.2 else acc)
    none

/-- Claim C1 counterexample: on input `b"<< /Key 1 /Flag true >>"`, the very
first call to `nextobject` on a plain `PSStackParser` raises `PSEOF`
(UnexpectedEof) without ever returning the Dict: the inherited `flush` hook is
a no-op, so nothing moves to `results`. -/
theorem C1_cex :
    (nextobject false 16 60 (initSp inpDictOk)).errKind = some Err.eofE := rfl

/-- Claim C1 (amended): calling `nextobject` on a plain `PSStackParser` over
`b"<< /Key 1 /Flag true >>"` raises UnexpectedEof without returning an
object; the Dict mapping "Key" to 1 and "Flag" to true is nonetheless
correctly assembled and left on the operand stack, paired with offset 0 of
the opening `<<`, with the context stack empty and no results. -/
theorem C1_amended :
    (nextobject false 16 60 (initSp inpDictOk)).errKind = some Err.eofE ∧
    (nextobject false 16 60 (initSp inpDictOk)).state.curstack =
      [(0, Obj.dict [("Key", Obj.int 1), ("Flag", Obj.bool true)])] ∧
    (nextobject false 16 60 (initSp inpDictOk)).state.context = [] ∧
    (nextobject false 16 60 (initSp inpDictOk)).state.results = [] :=
  ⟨rfl, rfl, rfl, rfl⟩

/-- Claim C3: the octal-escape assertion is violated by the escape `\777`.
On input `b"(\777)"` the tokenizer accumulates the three octal digits `777`,
decodes them to 511, and the `assert chrcode < 256` in `_parse_string_1`
fails, raising `AssertionError`. -/
theorem C3_octal_assert_fires :
    (nexttoken 20 (initTk [40, 92, 55, 55, 55, 41])).errKind = some Err.assertE ∧
    octNum [55, 55, 55] = 511 :=
  ⟨rfl, rfl⟩

/-- A hex digit byte is not a whitespace byte. -/
theorem hexDigit_not_space (d : Nat) (h : isHexDigit d = true) : isSpace d = false := by
  revert h
  simp [isHexDigit, isDigit, isSpace]
  omega

/-- Inserting a `0` digit in front of the lone trailing digit of an
even-prefixed digit list does not change the `HEX_PAIR` decoding: `hexDigitVal
48 = 0`, so the final pair `0d` decodes to the same byte as the lone `d`. -/
theorem hexPairs_pad : ∀ (u : List Nat), u.length % 2 = 0 → ∀ (d : Nat),
    hexPairs (u ++ [48, d]) = hexPairs (u ++ [d])
  | [], _, d => by simp [hexPairs, hexDigitVal]
  | [_], h, _ => by simp at h
  | a :: b :: t, h, d => by
      have ht : t.length % 2 = 0 := by simp [List.length_cons] at h; omega
      have ih := hexPairs_pad t ht d
      simp only [List.cons_append, hexPairs]
      exact congrArg _ ih

/-- Claim C2 counterexample: tokenizing `<F>` yields the ByteString `0x0F`,
while tokenizing `<F0>` yields `0xF0`; the body `F` has odd length, so the
claim that `<h>` decodes like `<h0>` is false. -/
theorem C2_cex :
    tokenizeAll 3 20 (initTk [60, 70, 62]) = [(0, Token.bytes [15])] ∧
    tokenizeAll 3 20 (initTk [60, 70, 48, 62]) = [(0, Token.bytes [240])] ∧
    tokenizeAll 3 20 (initTk [60, 70, 62]) ≠ tokenizeAll 3 20 (initTk [60, 70, 48, 62]) :=
  ⟨rfl, rfl, by decide⟩

/-- Claim C2 (amended): a trailing single hex digit is decoded as if a `0`
PRECEDED it: for every hex-string body with an even number of hex digits
before a trailing digit `d`, the emitted ByteString equals that of the body
with `0` inserted before `d` (so `<h>` decodes like `<h'>` where `h'` has a
`0` before the final digit, e.g. `<F>` like `<0F>`, not like `<F0>`). -/
theorem C2_amended :
    (∀ (body : List Nat) (d : Nat), isHexDigit d = true →
        (body.filter fun c => !isSpace c).length % 2 = 0 →
        hexTokenBytes (body ++ [48, d]) = hexTokenBytes (body ++ [d])) ∧
    tokenizeAll 3 20 (initTk [60, 70, 62]) = tokenizeAll 3 20 (initTk [60, 48, 70, 62]) := by
  refine ⟨?_, rfl⟩
  intro body d hd he
  unfold hexTokenBytes
  rw [List.filter_append, List.filter_append]
  have hds : isSpace d = false := hexDigit_not_space d hd
  have hf2 : List.filter (fun c => !isSpace c) [48, d] = [48, d] := by
    simp only [List.filter, hds, Bool.not_false]
    rfl
  have hf1 : List.filter (fun c => !isSpace c) [d] = [d] := by
    simp only [List.filter, hds, Bool.not_false]
  rw [hf2, hf1]
  exact hexPairs_pad _ he d

/-- Witness for C2_amended at the body `01` with trailing digit `F`. -/
theorem C2_witness :
    hexTokenBytes [48, 49, 48, 70] = hexTokenBytes [48, 49, 70] :=
  C2_amended.1 [48, 49] 70 (by decide) (by decide)

/-- Python-dict lookup after a Python-dict insert. -/
theorem pyDictGet_insert (d : List (String × Obj)) (k s : String) (v : Obj) :
    pyDictGet (pyDictInsert d k v) s = if k = s then some v else pyDictGet d s := by
  induction d with
  | nil => simp [pyDictInsert, pyDictGet]
  | cons kv rest ih =>
    obtain ⟨k0, v0⟩ := kv
    by_cases h0 : k0 = k
    · subst h0
      by_cases h1 : k0 = s
      · subst h1; simp [pyDictInsert, pyDictGet]
      · simp [pyDictInsert, pyDictGet, h1]
    · by_cases h1 : k0 = s
      · subst h1
        have h2 : ¬ k = k0 := fun hh => h0 hh.symm
        simp [pyDictInsert, pyDictGet, h0, h2]
      · simp [pyDictInsert, pyDictGet, h0, h1, ih]

/-- The dict comprehension agrees pointwise with a last-non-null-wins fold,
relative to any starting dictionary. -/
theorem buildDict_get (strict : Bool) :
    ∀ (ps : List (Obj × Obj)) (d0 d : List (String × Obj)) (s : String),
      buildDict strict ps d0 = Except.ok d →
      pyDictGet d s =
        ps.foldl
          (fun acc kv => if !kv.2.isNull && keyVal strict kv.1 s then some kv.2 else acc)
          (pyDictGet d0 s)
  | [], d0, d, s, h => by
      simp only [buildDict] at h
      cases h
      simp
  | (k, v) :: rest, d0, d, s, h => by
      by_cases hv : v.isNull = true
      · simp only [buildDict, hv, if_true] at h
        have ih := buildDict_get strict rest d0 d s h
        simp only [List.foldl_cons, hv, Bool.not_true, Bool.false_and, if_false]
        exact ih
      · have hv2 : v.isNull = false := by revert hv; cases v.isNull <;> simp
        simp only [buildDict, hv2, Bool.false_eq_true, if_false] at h
        cases hl : literalName strict k with
        | error e => rw [hl] at h; simp at h
        | ok t =>
          rw [hl] at h
          have ih := buildDict_get strict rest (pyDictInsert d0 t v) d s h
          rw [List.foldl_cons, ih]
          congr 1
          rw [pyDictGet_insert]
          simp only [keyVal, hl, hv2, Bool.not_false, Bool.true_and]
          by_cases ht : t = s
          · simp [ht]
          · simp [ht]

/-- Claim C10 (amended): in the Dict built from the flat item list of a
successfully closed dict, a key maps to the value of its LAST occurrence
whose value is not the null marker; null-valued pairs are filtered out before
insertion, so a later null occurrence does not erase an earlier non-null
value. -/
theorem C10_amended (strict : Bool) (objs : List Obj) (d : List (String × Obj))
    (s : String) (h : dictFromItems strict objs = Except.ok d) :
    pyDictGet d s = lastNonNull strict (dictPairs objs) s := by
  have := buildDict_get strict (dictPairs objs) [] d s h
  simpa [pyDictGet, lastNonNull] using this

/-- Witness for C10_amended: duplicate key `K` with values 1 then 2; the Dict
maps `K` to the last value 2. -/
theorem C10_witness :
    pyDictGet [("K", Obj.int 2)] "K" =
      lastNonNull false
        (dictPairs [Obj.name (NameKey.txt "K"), Obj.int 1,
                    Obj.name (NameKey.txt "K"), Obj.int 2]) "K" :=
  C10_amended false
    [Obj.name (NameKey.txt "K"), Obj.int 1, Obj.name (NameKey.txt "K"), Obj.int 2]
    [("K", Obj.int 2)] "K" rfl

/-- Claim C10 counterexample: in the item list `/K 1 /K null`, the key `K`
occurs twice and its LAST occurrence carries the null marker, yet the
constructed Dict maps `K` to the earlier value 1 — the earlier pair is NOT
discarded, contradicting the claim that the last occurrence wins with
null-valued pairs dropped. -/
theorem C10_cex :
    dictFromItems false
        [Obj.name (NameKey.txt "K"), Obj.int 1, Obj.name (NameKey.txt "K"), Obj.null] =
      Except.ok [("K", Obj.int 1)] ∧
    pyDictGet [("K", Obj.int 1)] "K" = some (Obj.int 1) :=
  ⟨rfl, rfl⟩

/-- Claim C4: when `>>` successfully closes a dict builder whose flat item
list has odd length, `nextobject` raises `PSSyntaxError`, and the error is
raised identically for strict and lenient mode (only `PSTypeError` is
caught); concretely, `b"<< /K 1 /V >>"` raises `PSSyntaxError` under both
settings. -/
theorem C4_dict_parity :
    (∀ (strict : Bool) (sp : SPState) (pos p0 : Nat) (t0 : Option Kind)
        (s0 : List (Nat × Obj)) (rest : List (Nat × Option Kind × List (Nat × Obj))),
        sp.curtype = some Kind.d →
        sp.context = (p0, t0, s0) :: rest →
        sp.curstack.length % 2 = 1 →
        dispatch strict sp pos (Token.kwd [62, 62]) =
          StepRes.err Err.synE
            { sp with curtype := t0, curstack := s0, context := rest }) ∧
    (nextobject true 16 60 (initSp inpDictOdd)).errKind = some Err.synE ∧
    (nextobject false 16 60 (initSp inpDictOdd)).errKind = some Err.synE := by
  refine ⟨?_, rfl, rfl⟩
  intro strict sp pos p0 t0 s0 rest h1 h2 h3
  simp only [dispatch, endType, h1, h2]
  norm_num
  simp [List.length_map, h3]

/-- Witness for the general part of C4_dict_parity: a dict builder holding a
single item is closed by `>>`. -/
theorem C4_witness :
    dispatch true
        { base := initTk [], context := [(7, none, [])], curtype := some Kind.d,
          curstack := [(9, Obj.int 1)], results := [] } 11 (Token.kwd [62, 62]) =
      StepRes.err Err.synE
        { base := initTk [], context := [], curtype := none,
          curstack := [], results := [] } :=
  C4_dict_parity.1 true
    { base := initTk [], context := [(7, none, [])], curtype := some Kind.d,
      curstack := [(9, Obj.int 1)], results := [] }
    11 7 none [] [] rfl rfl rfl

/-- Claim C6: dispatching `]` when the innermost builder kind is not `array`
raises `PSTypeError`; in strict mode the error propagates, in lenient mode
the token is discarded and the builder state is unchanged (the mismatch check
precedes every mutation in `end_type`).  On a matching close, the enclosing
builder is resumed and the completed List is pushed paired with the position
`p0` recorded when the `[` opened the builder — and dispatching `[` at
position `pos` records exactly `pos`. -/
theorem C6_array_close (sp : SPState) (pos : Nat) :
    (sp.curtype ≠ some Kind.a →
        dispatch true sp pos (Token.kwd [93]) = StepRes.err Err.typeE sp ∧
        dispatch false sp pos (Token.kwd [93]) = StepRes.ok sp) ∧
    (∀ (p0 : Nat) (t0 : Option Kind) (s0 : List (Nat × Obj))
        (rest : List (Nat × Option Kind × List (Nat × Obj))) (strict : Bool),
        sp.curtype = some Kind.a →
        sp.context = (p0, t0, s0) :: rest →
        dispatch strict sp pos (Token.kwd [93]) =
          StepRes.ok
            { sp with curtype := t0,
                      curstack := s0 ++ [(p0, Obj.list (sp.curstack.map Prod.snd))],
                      context := rest }) ∧
    (∀ (strict : Bool),
        dispatch strict sp pos (Token.kwd [91]) =
          StepRes.ok
            { sp with context := (pos, sp.curtype, sp.curstack) :: sp.context,
                      curtype := some Kind.a, curstack := [] }) := by
  refine ⟨?_, ?_, ?_⟩
  · intro hne
    constructor
    · simp [dispatch, endType, hne]
    · simp [dispatch, endType, hne]
  · intro p0 t0 s0 rest strict h1 h2
    simp [dispatch, endType, h1, h2, pushSp]
  · intro strict
    simp [dispatch, startType]

/-- Witness for C6_array_close: a mismatched `]` at top level in both modes,
a matching close of an array builder, and an opening `[`. -/
theorem C6_witness :
    (dispatch true
        { base := initTk [], context := [], curtype := none, curstack := [],
          results := [] } 3 (Token.kwd [93]) =
      StepRes.err Err.typeE
        { base := initTk [], context := [], curtype := none, curstack := [],
          results := [] }) ∧
    (dispatch false
        { base := initTk [], context := [], curtype := none, curstack := [],
          results := [] } 3 (Token.kwd [93]) =
      StepRes.ok
        { base := initTk [], context := [], curtype := none, curstack := [],
          results := [] }) ∧
    (dispatch false
        { base := initTk [], context := [(2, none, [])], curtype := some Kind.a,
          curstack := [(4, Obj.int 5)], results := [] } 9 (Token.kwd [93]) =
      StepRes.ok
        { base := initTk [], context := [], curtype := none,
          curstack := [(2, Obj.list [Obj.int 5])], results := [] }) := by
  refine ⟨?_, ?_, ?_⟩
  · exact ((C6_array_close
      { base := initTk [], context := [], curtype := none, curstack := [],
        results := [] } 3).1 (by simp)).1
  · exact ((C6_array_close
      { base := initTk [], context := [], curtype := none, curstack := [],
        results := [] } 3).1 (by simp)).2
  · exact (C6_array_close
      { base := initTk [], context := [(2, none, [])], curtype := some Kind.a,
        curstack := [(4, Obj.int 5)], results := [] } 9).2.1 2 none [] [] false rfl rfl

/-- A successful lookup is unaffected by appending entries. -/
theorem symLookup_append {α : Type} [DecidableEq α]
    (l1 l2 : List (α × Nat)) (p : α) (id : Nat)
    (h : symLookup l1 p = some id) : symLookup (l1 ++ l2) p = some id := by
  induction l1 with
  | nil => simp [symLookup] at h
  | cons kv rest ih =>
    obtain ⟨k, v⟩ := kv
    by_cases hk : k = p
    · simp_all [symLookup]
    · simp only [symLookup, if_neg hk] at h
      simpa [symLookup, hk] using ih h

/-- A failed lookup finds a freshly appended binding. -/
theorem symLookup_append_self {α : Type} [DecidableEq α]
    (l : List (α × Nat)) (p : α) (n : Nat)
    (h : symLookup l p = none) : symLookup (l ++ [(p, n)]) p = some n := by
  induction l with
  | nil => simp [symLookup]
  | cons kv rest ih =>
    obtain ⟨k, v⟩ := kv
    by_cases hk : k = p
    · simp [symLookup, hk] at h
    · simp only [symLookup, if_neg hk] at h
      simpa [symLookup, hk] using ih h

/-- Interning any payload preserves an existing binding. -/
theorem symLookup_intern {α : Type} [DecidableEq α]
    (t : SymTable α) (p q : α) (id : Nat)
    (h : symLookup t.entries p = some id) :
    symLookup (intern t q).2.entries p = some id := by
  unfold intern
  cases hl : symLookup t.entries q with
  | some i2 => exact h
  | none => exact symLookup_append t.entries [(q, t.next)] p id h

/-- After `intern t p`, the table maps `p` to the returned instance. -/
theorem intern_lookup_self {α : Type} [DecidableEq α] (t : SymTable α) (p : α) :
    symLookup (intern t p).2.entries p = some (intern t p).1 := by
  unfold intern
  cases hl : symLookup t.entries p with
  | some id => exact hl
  | none => exact symLookup_append_self t.entries p t.next hl

/-- A binding for `p` survives any sequence of interleaved intern calls. -/
theorem symLookup_foldl_intern {α : Type} [DecidableEq α] (p : α) (id : Nat) :
    ∀ (ops : List α) (t : SymTable α), symLookup t.entries p = some id →
      symLookup ((ops.foldl (fun s q => (intern s q).2) t).entries) p = some id
  | [], _, h => h
  | q :: rest, t, h =>
      symLookup_foldl_intern p id rest (intern t q).2 (symLookup_intern t p q id h)

/-- `intern` on a payload already bound returns the bound instance and leaves
the table unchanged. -/
theorem intern_of_lookup {α : Type} [DecidableEq α] (t : SymTable α) (p : α)
    (id : Nat) (h : symLookup t.entries p = some id) : intern t p = (id, t) := by
  unfold intern
  rw [h]

/-- Claim C7: interning a payload that is already present returns the
previously interned instance: after interning `p` and then any sequence of
further intern operations, interning `p` again returns exactly the instance
the first intern returned (identity equality, modelled by the allocated
instance id), and the table is left unchanged by the repeated intern. -/
theorem C7_intern_identity {α : Type} [DecidableEq α]
    (t : SymTable α) (p : α) (ops : List α) :
    (intern (ops.foldl (fun s q => (intern s q).2) (intern t p).2) p).1 =
      (intern t p).1 ∧
    (intern (ops.foldl (fun s q => (intern s q).2) (intern t p).2) p).2 =
      ops.foldl (fun s q => (intern s q).2) (intern t p).2 := by
  have h := symLookup_foldl_intern p (intern t p).1 ops (intern t p).2
    (intern_lookup_self t p)
  have key := intern_of_lookup
    (ops.foldl (fun s q => (intern s q).2) (intern t p).2) p (intern t p).1 h
  exact ⟨by rw [key], by rw [key]⟩

/-- Witness for C7_intern_identity over `String` payloads: intern "a", then
"b", then "a" again in an initially empty table. -/
theorem C7_witness :
    (intern ((["b"] : List String).foldl (fun s q => (intern s q).2)
        (intern ⟨[], 0⟩ "a").2) "a").1 = (intern (⟨[], 0⟩ : SymTable String) "a").1 :=
  (C7_intern_identity (⟨[], 0⟩ : SymTable String) "a" ["b"]).1


/-- Claim C5: at end of stream (buffer exhausted and the stream read returns
no bytes), `nexttoken` feeds the one-byte whitespace `\\n` to the active state
handler (on the state whose `bufpos`/`buf` were already mutated by the failing
`fillbuf`); if that flush leaves no pending token, `PSEOF` is raised at once;
if it yields a token, that token is returned with `eof` set sticky — and any
call on a state with `eof` set raises `PSEOF` immediately. -/
theorem C5_eof_policy (st st2 : TkState) (i2 fuel : Nat)
    (h1 : st.eof = false) (h2 : st.tokens = [])
    (h3 : ¬ st.charpos < st.buf.length)
    (h4 : st.fdata.length ≤ st.fpos)
    (h5 : parseStep st.parse1 [10] 0 { st with bufpos := st.fpos, buf := [] } =
          PRes.ok i2 st2) :
    (st2.tokens = [] →
        nexttoken (fuel + 1) st =
          TkRes.err Err.eofE { st2 with charpos := i2, eof := true }) ∧
    (∀ (t : Nat × Token) (rest : List (Nat × Token)), st2.tokens = t :: rest →
        nexttoken (fuel + 1) st =
          TkRes.tok t { st2 with charpos := i2, eof := true, tokens := rest }) ∧
    (∀ (st3 : TkState) (fuel2 : Nat), st3.eof = true →
        nexttoken fuel2 st3 = TkRes.err Err.eofE st3) := by
  refine ⟨?_, ?_, ?_⟩
  · intro hst2
    cases st with
    | mk fd fp bp bf cp p1 ct ctp tks eo pa hx oc =>
      dsimp only at h1 h2 h3 h4 h5
      subst h1
      subst h2
      have hdrop : fd.drop fp = [] := by
        rw [List.drop_eq_nil_iff]
        omega
      have hfill : fillbuf ⟨fd, fp, bp, bf, cp, p1, ct, ctp, [], false, pa, hx, oc⟩ =
          FbRes.eofF ⟨fd, fp, fp, [], cp, p1, ct, ctp, [], false, pa, hx, oc⟩ := by
        unfold fillbuf
        dsimp only
        rw [if_neg h3, hdrop]
        simp
      show nexttokenLoop (fuel + 1)
          ⟨fd, fp, bp, bf, cp, p1, ct, ctp, [], false, pa, hx, oc⟩ = _
      rw [nexttokenLoop]
      dsimp only
      rw [hfill]
      dsimp only
      rw [h5]
      dsimp only
      rw [hst2]
  · intro t rest hst2
    cases st with
    | mk fd fp bp bf cp p1 ct ctp tks eo pa hx oc =>
      dsimp only at h1 h2 h3 h4 h5
      subst h1
      subst h2
      have hdrop : fd.drop fp = [] := by
        rw [List.drop_eq_nil_iff]
        omega
      have hfill : fillbuf ⟨fd, fp, bp, bf, cp, p1, ct, ctp, [], false, pa, hx, oc⟩ =
          FbRes.eofF ⟨fd, fp, fp, [], cp, p1, ct, ctp, [], false, pa, hx, oc⟩ := by
        unfold fillbuf
        dsimp only
        rw [if_neg h3, hdrop]
        simp
      show nexttokenLoop (fuel + 1)
          ⟨fd, fp, bp, bf, cp, p1, ct, ctp, [], false, pa, hx, oc⟩ = _
      rw [nexttokenLoop]
      dsimp only
      rw [hfill]
      dsimp only
      rw [h5]
      dsimp only
      rw [hst2]
  · intro st3 fuel2 h
    unfold nexttoken
    rw [h]
    simp

/-- Witness for C5_eof_policy: flushing the keyword state at end of stream
returns the pending `ab` keyword token and sets `eof`. -/
theorem C5_witness :
    nexttoken 7 exStKw =
      TkRes.tok (0, Token.kwd [97, 98])
        { exStKw2 with charpos := 0, eof := true, tokens := [] } :=
  (C5_eof_policy exStKw exStKw2 0 6 rfl rfl (by decide) (by decide) rfl).2.1
    (0, Token.kwd [97, 98]) [] rfl


/-- The empty token list trivially satisfies `notGtTok`. -/
theorem notGtTok_nil : notGtTok [] := by
  intro pt hpt
  exact absurd hpt (List.not_mem_nil pt)

/-- Appending a non-`>` token preserves `notGtTok`. -/
theorem notGtTok_snoc (l : List (Nat × Token)) (pt : Nat × Token)
    (h : notGtTok l) (hp : pt.2 ≠ Token.kwd [62]) : notGtTok (l ++ [pt]) := by
  intro q hq
  rcases List.mem_append.1 hq with h1 | h2
  · exact h q h1
  · rw [List.mem_singleton.1 h2]
    exact hp

/-- The tail of a `notGtTok` list satisfies `notGtTok`. -/
theorem notGtTok_tail (t0 : Nat × Token) (rest : List (Nat × Token))
    (h : notGtTok (t0 :: rest)) : notGtTok rest :=
  fun q hq => h q (List.mem_cons_of_mem t0 hq)

/-- One state-handler call preserves the tokenizer run invariant. -/
theorem parseStep_inv (s : List Nat) (i : Nat) (st : TkState) (i2 : Nat)
    (st2 : TkState) (hInv : InvTk st)
    (h : parseStep st.parse1 s i st = PRes.ok i2 st2) : InvTk st2 := by
  obtain ⟨hkw, htk⟩ := hInv
  cases hp : st.parse1 <;> rw [hp] at h <;> dsimp only [parseStep] at h
  case main =>
    unfold parseMain at h
    cases hf : findFrom (fun c => !isSpace c) s i <;> rw [hf] at h <;> dsimp only at h
    case none =>
      injection h with h1 h2
      subst h2
      exact ⟨fun hkx => hkw hkx, htk⟩
    case some j =>
      split_ifs at h with hc1 hc2 hc3 hc4 hc5 hc6 hc7 hc8 hc9 <;>
          injection h with h1 h2 <;> subst h2
      · exact ⟨fun hkx => by simp [addToken, hp] at hkx, htk⟩
      · exact ⟨fun hkx => by simp [addToken, hp] at hkx, htk⟩
      · exact ⟨fun hkx => by simp [addToken, hp] at hkx, htk⟩
      · exact ⟨fun hkx => by simp [addToken, hp] at hkx, htk⟩
      · exact ⟨fun _ => ⟨s.getD j 0, [], rfl, hc5⟩, htk⟩
      · exact ⟨fun hkx => by simp [addToken, hp] at hkx, htk⟩
      · exact ⟨fun hkx => by simp [addToken, hp] at hkx, htk⟩
      · exact ⟨fun hkx => by simp [addToken, hp] at hkx, htk⟩
      · exact ⟨fun hkx => by simp [addToken, hp] at hkx, htk⟩
      · refine ⟨fun hkx => by simp [addToken, hp] at hkx, ?_⟩
        refine notGtTok_snoc _ _ htk ?_
        intro hh
        simp only [Token.kwd.injEq, List.cons.injEq, and_true] at hh
        exact hc8 hh
  case comment =>
    unfold parseComment at h
    cases hf : findFrom (fun c => c = 13 || c = 10) s i <;> rw [hf] at h <;>
        dsimp only at h <;> injection h with h1 h2 <;> subst h2
    · exact ⟨fun hkx => by simp [addToken, hp] at hkx, htk⟩
    · exact ⟨fun hkx => by simp [addToken] at hkx, htk⟩
  case literal =>
    unfold parseLiteral at h
    cases hf : findFrom isEndLiteral s i <;> rw [hf] at h <;> dsimp only at h
    case none =>
      injection h with h1 h2
      subst h2
      exact ⟨fun hkx => by simp [addToken, hp] at hkx, htk⟩
    case some j =>
      split_ifs at h with hc1 <;> injection h with h1 h2 <;> subst h2
      · exact ⟨fun hkx => by simp [addToken] at hkx, htk⟩
      · refine ⟨fun hkx => by simp [addToken] at hkx, ?_⟩
        refine notGtTok_snoc _ _ htk ?_
        intro hh
        simp at hh
  case literalHex =>
    unfold parseLiteralHex at h
    dsimp only at h
    split_ifs at h with hc1 hc2 <;> injection h with h1 h2 <;> subst h2
    · exact ⟨fun hkx => by simp [addToken, hp] at hkx, htk⟩
    · exact ⟨fun hkx => by simp [addToken] at hkx, htk⟩
    · exact ⟨fun hkx => by simp [addToken] at hkx, htk⟩
  case number =>
    unfold parseNumber at h
    cases hf : findFrom (fun c => !isDigit c) s i <;> rw [hf] at h <;> dsimp only at h
    case none =>
      injection h with h1 h2
      subst h2
      exact ⟨fun hkx => by simp [addToken, hp] at hkx, htk⟩
    case some j =>
      split_ifs at h with hc1
      · injection h with h1 h2
        subst h2
        exact ⟨fun hkx => by simp [addToken] at hkx, htk⟩
      · cases hpi : parseIntAcc (st.curtoken ++ slice s i j) <;> rw [hpi] at h <;>
            dsimp only at h <;> injection h with h1 h2 <;> subst h2
        · exact ⟨fun hkx => by simp [addToken] at hkx, htk⟩
        · refine ⟨fun hkx => by simp [addToken] at hkx, ?_⟩
          refine notGtTok_snoc _ _ htk ?_
          intro hh
          simp at hh
  case float =>
    unfold parseFloat at h
    cases hf : findFrom (fun c => !isDigit c) s i <;> rw [hf] at h <;> dsimp only at h
    case none =>
      injection h with h1 h2
      subst h2
      exact ⟨fun hkx => by simp [addToken, hp] at hkx, htk⟩
    case some j =>
      split_ifs at h with hc1 <;> injection h with h1 h2 <;> subst h2
      · refine ⟨fun hkx => by simp [addToken] at hkx, ?_⟩
        refine notGtTok_snoc _ _ htk ?_
        intro hh
        simp at hh
      · exact ⟨fun hkx => by simp [addToken] at hkx, htk⟩
  case keyword =>
    obtain ⟨c, cs, hct, hal⟩ := hkw hp
    unfold parseKeyword at h
    cases hf : findFrom isEndLiteral s i <;> rw [hf] at h <;> dsimp only at h
    case none =>
      injection h with h1 h2
      subst h2
      refine ⟨fun _ => ⟨c, cs ++ s.drop i, ?_, hal⟩, htk⟩
      show st.curtoken ++ s.drop i = c :: (cs ++ s.drop i)
      rw [hct]
      rfl
    case some j =>
      split_ifs at h with hc1 hc2 <;> injection h with h1 h2 <;> subst h2
      · refine ⟨fun hkx => by simp [addToken] at hkx, ?_⟩
        refine notGtTok_snoc _ _ htk ?_
        intro hh
        simp at hh
      · refine ⟨fun hkx => by simp [addToken] at hkx, ?_⟩
        refine notGtTok_snoc _ _ htk ?_
        intro hh
        simp at hh
      · refine ⟨fun hkx => by simp [addToken] at hkx, ?_⟩
        refine notGtTok_snoc _ _ htk ?_
        intro hh
        simp only [Token.kwd.injEq] at hh
        rw [hct] at hh
        simp only [List.cons_append, List.cons.injEq] at hh
        rw [hh.1] at hal
        exact absurd hal (by decide)
  case string =>
    unfold parseString at h
    cases hf : findFrom isEndString s i <;> rw [hf] at h <;> dsimp only at h
    case none =>
      injection h with h1 h2
      subst h2
      exact ⟨fun hkx => by simp [addToken, hp] at hkx, htk⟩
    case some j =>
      split_ifs at h with hc1 hc2 hc3 <;> injection h with h1 h2 <;> subst h2
      · exact ⟨fun hkx => by simp [addToken] at hkx, htk⟩
      · exact ⟨fun hkx => by simp [addToken, hp] at hkx, htk⟩
      · refine ⟨fun hkx => by simp [addToken] at hkx, ?_⟩
        refine notGtTok_snoc _ _ htk ?_
        intro hh
        simp at hh
      · exact ⟨fun hkx => by simp [addToken, hp] at hkx, htk⟩
  case string1 =>
    unfold parseString1 at h
    dsimp only at h
    by_cases hc1 : (isOctal (s.getD i 0) && decide (st.octAcc.length < 3)) = true
    · rw [if_pos hc1] at h
      injection h with h1 h2
      subst h2
      exact ⟨fun hkx => by simp [addToken, hp] at hkx, htk⟩
    · rw [if_neg hc1] at h
      by_cases hc2 : st.octAcc ≠ []
      · rw [if_pos hc2] at h
        by_cases hc3 : octNum st.octAcc < 256
        · rw [if_pos hc3] at h
          injection h with h1 h2
          subst h2
          exact ⟨fun hkx => by simp [addToken] at hkx, htk⟩
        · rw [if_neg hc3] at h
          simp at h
      · rw [if_neg hc2] at h
        cases hesc : escVal? (s.getD i 0) <;> rw [hesc] at h <;> dsimp only at h
        · split_ifs at h with hc4 <;> injection h with h1 h2 <;> subst h2
          · exact ⟨fun hkx => by simp [addToken] at hkx, htk⟩
          · exact ⟨fun hkx => by simp [addToken] at hkx, htk⟩
        · injection h with h1 h2
          subst h2
          exact ⟨fun hkx => by simp [addToken] at hkx, htk⟩
  case wopen =>
    unfold parseWopen at h
    dsimp only at h
    split_ifs at h with hc1 <;> injection h with h1 h2 <;> subst h2
    · refine ⟨fun hkx => by simp [addToken] at hkx, ?_⟩
      refine notGtTok_snoc _ _ htk ?_
      intro hh
      simp at hh
    · exact ⟨fun hkx => by simp [addToken] at hkx, htk⟩
  case wclose =>
    unfold parseWclose at h
    dsimp only at h
    split_ifs at h with hc1 <;> injection h with h1 h2 <;> subst h2
    · refine ⟨fun hkx => by simp [addToken] at hkx, ?_⟩
      refine notGtTok_snoc _ _ htk ?_
      intro hh
      simp at hh
    · exact ⟨fun hkx => by simp [addToken] at hkx, htk⟩
  case hexstring =>
    unfold parseHexstring at h
    cases hf : findFrom isEndHexStr s i <;> rw [hf] at h <;> dsimp only at h
    case none =>
      injection h with h1 h2
      subst h2
      exact ⟨fun hkx => by simp [addToken, hp] at hkx, htk⟩
    case some j =>
      injection h with h1 h2
      subst h2
      refine ⟨fun hkx => by simp [addToken] at hkx, ?_⟩
      refine notGtTok_snoc _ _ htk ?_
      intro hh
      simp at hh

/-- `fillbuf` touches only the buffer fields, so it preserves the run
invariant on both outcomes. -/
theorem fillbuf_inv (st : TkState) (hInv : InvTk st) :
    (∀ st1, fillbuf st = FbRes.ok st1 → InvTk st1) ∧
    (∀ st1, fillbuf st = FbRes.eofF st1 → InvTk st1) := by
  obtain ⟨hkw, htk⟩ := hInv
  unfold fillbuf
  by_cases hc1 : st.charpos < st.buf.length
  · rw [if_pos hc1]
    exact ⟨fun st1 h => by injection h with h1; subst h1; exact ⟨hkw, htk⟩,
      fun st1 h => by simp at h⟩
  · rw [if_neg hc1]
    dsimp only
    by_cases hc2 : List.take 4096 (List.drop st.fpos st.fdata) = []
    · rw [if_pos hc2]
      exact ⟨fun st1 h => by simp at h,
        fun st1 h => by injection h with h1; subst h1; exact ⟨fun hkx => hkw hkx, htk⟩⟩
    · rw [if_neg hc2]
      exact ⟨fun st1 h => by injection h with h1; subst h1; exact ⟨fun hkx => hkw hkx, htk⟩,
        fun st1 h => by simp at h⟩

/-- Every token produced by the `nexttoken` loop from an invariant state is
not a lone-`>` keyword, and the invariant still holds afterwards. -/
theorem nexttokenLoop_inv (fuel : Nat) : ∀ (st : TkState), InvTk st →
    ∀ (t : Nat × Token) (st2 : TkState), nexttokenLoop fuel st = TkRes.tok t st2 →
      t.2 ≠ Token.kwd [62] ∧ InvTk st2 := by
  induction fuel with
  | zero =>
    intro st hInv t st2 h
    rw [nexttokenLoop] at h
    cases hts : st.tokens with
    | nil => rw [hts] at h; simp at h
    | cons t0 rest =>
      rw [hts] at h
      dsimp only at h
      injection h with h1 h2
      subst h1
      subst h2
      refine ⟨hInv.2 t0 (by rw [hts]; exact List.mem_cons_self t0 rest), ?_⟩
      exact ⟨fun hkx => hInv.1 hkx, notGtTok_tail t0 rest (hts ▸ hInv.2)⟩
  | succ fuel ih =>
    intro st hInv t st2 h
    rw [nexttokenLoop] at h
    cases hts : st.tokens with
    | cons t0 rest =>
      rw [hts] at h
      dsimp only at h
      injection h with h1 h2
      subst h1
      subst h2
      refine ⟨hInv.2 t0 (by rw [hts]; exact List.mem_cons_self t0 rest), ?_⟩
      exact ⟨fun hkx => hInv.1 hkx, notGtTok_tail t0 rest (hts ▸ hInv.2)⟩
    | nil =>
      rw [hts] at h
      dsimp only at h
      cases hfb : fillbuf st with
      | ok st1 =>
        rw [hfb] at h
        dsimp only at h
        have hInv1 : InvTk st1 := (fillbuf_inv st hInv).1 st1 hfb
        cases hps : parseStep st1.parse1 st1.buf st1.charpos st1 with
        | ok i2 stA =>
          rw [hps] at h
          dsimp only at h
          have hInv2 : InvTk stA := parseStep_inv st1.buf st1.charpos st1 i2 stA hInv1 hps
          exact ih { stA with charpos := i2 } ⟨fun hkx => hInv2.1 hkx, hInv2.2⟩ t st2 h
        | err e stA =>
          rw [hps] at h
          simp at h
      | eofF st1 =>
        rw [hfb] at h
        dsimp only at h
        have hInv1 : InvTk st1 := (fillbuf_inv st hInv).2 st1 hfb
        cases hps : parseStep st1.parse1 [10] 0 st1 with
        | err e stA =>
          rw [hps] at h
          simp at h
        | ok i2 stA =>
          rw [hps] at h
          dsimp only at h
          have hInv2 : InvTk stA := parseStep_inv [10] 0 st1 i2 stA hInv1 hps
          cases hts2 : stA.tokens with
          | nil =>
            rw [hts2] at h
            simp at h
          | cons t0 rest =>
            rw [hts2] at h
            dsimp only at h
            injection h with h1 h2
            subst h1
            subst h2
            refine ⟨hInv2.2 t0 (by rw [hts2]; exact List.mem_cons_self t0 rest), ?_⟩
            exact ⟨fun hkx => hInv2.1 hkx, notGtTok_tail t0 rest (hts2 ▸ hInv2.2)⟩

/-- Every token drawn by repeated `nexttoken` calls from an invariant state is
not a lone-`>` keyword. -/
theorem tokenizeAll_inv : ∀ (n fuel : Nat) (st : TkState), InvTk st →
    ∀ pt ∈ tokenizeAll n fuel st, pt.2 ≠ Token.kwd [62]
  | 0, fuel, st, _, pt, hpt => by simp [tokenizeAll] at hpt
  | n + 1, fuel, st, hInv, pt, hpt => by
      rw [tokenizeAll] at hpt
      cases hnt : nexttoken fuel st with
      | err e st1 => rw [hnt] at hpt; simp at hpt
      | tok t st1 =>
        rw [hnt] at hpt
        dsimp only at hpt
        unfold nexttoken at hnt
        cases heo : st.eof with
        | true => rw [heo] at hnt; simp at hnt
        | false =>
          rw [heo] at hnt
          simp only [Bool.false_eq_true, if_false] at hnt
          have hg := nexttokenLoop_inv fuel st hInv t st1 hnt
          rcases List.mem_cons.1 hpt with h1 | h2
          · rw [h1]; exact hg.1
          · exact tokenizeAll_inv n fuel st1 hg.2 pt h2

/-- The freshly constructed tokenizer satisfies the run invariant. -/
theorem initTk_inv (data : List Nat) : InvTk (initTk data) :=
  ⟨fun hkx => by simp [initTk, seekTk] at hkx, notGtTok_nil⟩

/-- Claim C9: a `>` in the main state that is not followed by a second `>` is
consumed without emitting a token and without an error: the main handler
enters the angle-close state consuming the `>`, and the angle-close handler
falls back to the main state at the byte following the `>` with the pending
token list untouched.  Consequently a lone `>` never appears as a token: no
token produced from a fresh parse of any input is the keyword `>`. -/
theorem C9_lone_gt :
    (∀ (st : TkState) (s : List Nat) (i j : Nat),
        findFrom (fun c => !isSpace c) s i = some j →
        s.getD j 0 = 62 → s.getD (j + 1) 0 ≠ 62 →
        parseMain s i st =
          PRes.ok (j + 1)
            { st with curtokenpos := st.bufpos + j, curtoken := [],
                      parse1 := PState.wclose } ∧
        parseWclose s (j + 1)
            { st with curtokenpos := st.bufpos + j, curtoken := [],
                      parse1 := PState.wclose } =
          PRes.ok (j + 1)
            { st with curtokenpos := st.bufpos + j, curtoken := [],
                      parse1 := PState.main }) ∧
    (∀ (data : List Nat) (n fuel : Nat),
        ∀ pt ∈ tokenizeAll n fuel (initTk data), pt.2 ≠ Token.kwd [62]) := by
  constructor
  · intro st s i j hf hc hne
    constructor
    · unfold parseMain
      rw [hf]
      dsimp only
      rw [hc]
      norm_num [isDigit, isAlpha]
    · unfold parseWclose
      dsimp only
      rw [if_neg hne]
  · intro data n fuel pt hpt
    exact tokenizeAll_inv n fuel (initTk data) (initTk_inv data) pt hpt

/-- Witness for C9_lone_gt: the two handler steps on the input `>a` from the
fresh state, and the single `[` token of the input `b"[ "`. -/
theorem C9_witness :
    parseMain [62, 97] 0 (initTk []) =
      PRes.ok 1
        { initTk [] with curtokenpos := (initTk []).bufpos + 0, curtoken := [],
                         parse1 := PState.wclose } ∧
    (0, Token.kwd [91]).2 ≠ Token.kwd [62] :=
  ⟨(C9_lone_gt.1 (initTk []) [62, 97] 0 0 (by decide) (by decide) (by decide)).1,
   C9_lone_gt.2 [91, 32] 10 20 (0, Token.kwd [91]) (by decide)⟩

set_option maxHeartbeats 1000000 in
/-- One handler call sends related states to related results. -/
theorem parseStep_rel (s : List Nat) (i : Nat) (a b : TkState) (hR : Rel a b) :
    PResRel (parseStep a.parse1 s i a) (parseStep b.parse1 s i b) := by
  obtain ⟨fd, fp, bp, bf, cp, p1, ct, ctp, tks, eo, pa1, hx1, oc1⟩ := a
  obtain ⟨fd2, fp2, bp2, bf2, cp2, p2, ct2, ctp2, tks2, eo2, pa2, hx2, oc2⟩ := b
  obtain ⟨h1, h2, h3, h4, h5, h6, h7, h8, h9, h10, hpar, hoct, hhex⟩ := hR
  dsimp only at h1 h2 h3 h4 h5 h6 h7 h8 h9 h10 ⊢
  subst h1; subst h2; subst h3; subst h4; subst h5; subst h6; subst h7; subst h8
  subst h9; subst h10
  cases p1 <;> dsimp only [parseStep]
  case main =>
    unfold parseMain
    cases findFrom (fun c => !isSpace c) s i with
    | none => exact ⟨rfl, rfl, rfl, rfl, rfl, rfl, rfl, rfl, rfl, rfl, rfl, rfl, rfl, rfl⟩
    | some j =>
      dsimp only
      split_ifs with hc1 hc2 hc3 hc4 hc5 hc6 hc7 hc8 hc9 <;>
        exact ⟨rfl, rfl, rfl, rfl, rfl, rfl, rfl, rfl, rfl, rfl, rfl, rfl, rfl, rfl⟩
  case comment =>
    unfold parseComment
    cases findFrom (fun c => c = 13 || c = 10) s i <;> dsimp only <;>
      exact ⟨rfl, rfl, rfl, rfl, rfl, rfl, rfl, rfl, rfl, rfl, rfl, rfl, rfl, rfl⟩
  case literal =>
    unfold parseLiteral
    cases findFrom isEndLiteral s i with
    | none => exact ⟨rfl, rfl, rfl, rfl, rfl, rfl, rfl, rfl, rfl, rfl, rfl, rfl, rfl, rfl⟩
    | some j =>
      dsimp only
      split_ifs with hc1 <;>
        exact ⟨rfl, rfl, rfl, rfl, rfl, rfl, rfl, rfl, rfl, rfl, rfl, rfl, rfl, rfl⟩
  case literalHex =>
    have hx : hx1 = hx2 := hhex
    subst hx
    unfold parseLiteralHex
    dsimp only
    split_ifs with hc1 hc2 <;>
      exact ⟨rfl, rfl, rfl, rfl, rfl, rfl, rfl, rfl, rfl, rfl, rfl, rfl, rfl, rfl⟩
  case number =>
    unfold parseNumber
    cases findFrom (fun c => !isDigit c) s i with
    | none => exact ⟨rfl, rfl, rfl, rfl, rfl, rfl, rfl, rfl, rfl, rfl, rfl, rfl, rfl, rfl⟩
    | some j =>
      dsimp only
      split_ifs with hc1
      · exact ⟨rfl, rfl, rfl, rfl, rfl, rfl, rfl, rfl, rfl, rfl, rfl, rfl, rfl, rfl⟩
      · cases parseIntAcc (ct ++ slice s i j) <;> dsimp only <;>
          exact ⟨rfl, rfl, rfl, rfl, rfl, rfl, rfl, rfl, rfl, rfl, rfl, rfl, rfl, rfl⟩
  case float =>
    unfold parseFloat
    cases findFrom (fun c => !isDigit c) s i with
    | none => exact ⟨rfl, rfl, rfl, rfl, rfl, rfl, rfl, rfl, rfl, rfl, rfl, rfl, rfl, rfl⟩
    | some j =>
      dsimp only
      split_ifs with hc1 <;>
        exact ⟨rfl, rfl, rfl, rfl, rfl, rfl, rfl, rfl, rfl, rfl, rfl, rfl, rfl, rfl⟩
  case keyword =>
    unfold parseKeyword
    cases findFrom isEndLiteral s i with
    | none => exact ⟨rfl, rfl, rfl, rfl, rfl, rfl, rfl, rfl, rfl, rfl, rfl, rfl, rfl, rfl⟩
    | some j =>
      dsimp only
      split_ifs with hc1 hc2 <;>
        exact ⟨rfl, rfl, rfl, rfl, rfl, rfl, rfl, rfl, rfl, rfl, rfl, rfl, rfl, rfl⟩
  case string =>
    have hpe : pa1 = pa2 := hpar
    subst hpe
    unfold parseString
    cases findFrom isEndString s i with
    | none => exact ⟨rfl, rfl, rfl, rfl, rfl, rfl, rfl, rfl, rfl, rfl, rfl, rfl, rfl, rfl⟩
    | some j =>
      dsimp only
      split_ifs with hc1 hc2 hc3 <;>
        exact ⟨rfl, rfl, rfl, rfl, rfl, rfl, rfl, rfl, rfl, rfl, rfl, rfl, rfl, rfl⟩
  case string1 =>
    have hpe : pa1 = pa2 := hpar
    subst hpe
    have hoe : oc1 = oc2 := hoct
    subst hoe
    unfold parseString1
    dsimp only
    by_cases hc1 : (isOctal (s.getD i 0) && decide (oc1.length < 3)) = true
    · simp only [if_pos hc1]
      exact ⟨rfl, rfl, rfl, rfl, rfl, rfl, rfl, rfl, rfl, rfl, rfl, rfl, rfl, rfl⟩
    · simp only [if_neg hc1]
      by_cases hc2 : oc1 ≠ []
      · simp only [if_pos hc2]
        by_cases hc3 : octNum oc1 < 256
        · simp only [if_pos hc3]
          exact ⟨rfl, rfl, rfl, rfl, rfl, rfl, rfl, rfl, rfl, rfl, rfl, rfl, rfl, rfl⟩
        · simp only [if_neg hc3]
          exact ⟨rfl, rfl, rfl, rfl, rfl, rfl, rfl, rfl, rfl, rfl, rfl, rfl, rfl, rfl⟩
      · simp only [if_neg hc2]
        cases escVal? (s.getD i 0) <;> dsimp only
        · split_ifs with hc4 <;>
            exact ⟨rfl, rfl, rfl, rfl, rfl, rfl, rfl, rfl, rfl, rfl, rfl, rfl, rfl, rfl⟩
        · exact ⟨rfl, rfl, rfl, rfl, rfl, rfl, rfl, rfl, rfl, rfl, rfl, rfl, rfl, rfl⟩
  case wopen =>
    unfold parseWopen
    dsimp only
    split_ifs with hc1 <;>
      exact ⟨rfl, rfl, rfl, rfl, rfl, rfl, rfl, rfl, rfl, rfl, rfl, rfl, rfl, rfl⟩
  case wclose =>
    unfold parseWclose
    dsimp only
    split_ifs with hc1 <;>
      exact ⟨rfl, rfl, rfl, rfl, rfl, rfl, rfl, rfl, rfl, rfl, rfl, rfl, rfl, rfl⟩
  case hexstring =>
    unfold parseHexstring
    cases findFrom isEndHexStr s i with
    | none => exact ⟨rfl, rfl, rfl, rfl, rfl, rfl, rfl, rfl, rfl, rfl, rfl, rfl, rfl, rfl⟩
    | some j =>
      dsimp only
      exact ⟨rfl, rfl, rfl, rfl, rfl, rfl, rfl, rfl, rfl, rfl, rfl, rfl, rfl, rfl⟩

/-- Unfolding equation: a pending token is popped. -/
theorem nexttokenLoop_pop (fuel : Nat) (st : TkState) (t0 : Nat × Token)
    (rest : List (Nat × Token)) (h : st.tokens = t0 :: rest) :
    nexttokenLoop fuel st = TkRes.tok t0 { st with tokens := rest } := by
  cases st with
  | mk fd fp bp bf cp p1 ct ctp tks eo pa hx oc =>
    dsimp only at h
    subst h
    cases fuel <;> rfl

/-- Unfolding equation: no pending token and no fuel. -/
theorem nexttokenLoop_nil_zero (st : TkState) (h : st.tokens = []) :
    nexttokenLoop 0 st = TkRes.err Err.fuelE st := by
  cases st with
  | mk fd fp bp bf cp p1 ct ctp tks eo pa hx oc =>
    dsimp only at h
    subst h
    rfl

/-- Unfolding equation: no pending token, one loop iteration. -/
theorem nexttokenLoop_nil_succ (fuel : Nat) (st : TkState) (h : st.tokens = []) :
    nexttokenLoop (fuel + 1) st =
      (match fillbuf st with
       | .ok st1 =>
         (match parseStep st1.parse1 st1.buf st1.charpos st1 with
          | .ok i2 st2 => nexttokenLoop fuel { st2 with charpos := i2 }
          | .err e st2 => TkRes.err e st2)
       | .eofF st1 =>
         (match parseStep st1.parse1 [10] 0 st1 with
          | .ok i2 st2 =>
            (match ({ st2 with charpos := i2, eof := true } : TkState).tokens with
             | [] => TkRes.err Err.eofE { st2 with charpos := i2, eof := true }
             | t :: rest =>
                TkRes.tok t { st2 with charpos := i2, eof := true, tokens := rest })
          | .err e st2 => TkRes.err e st2)) := by
  cases st with
  | mk fd fp bp bf cp p1 ct ctp tks eo pa hx oc =>
    dsimp only at h
    subst h
    rfl

/-- `fillbuf` sends related states to related results. -/
theorem fillbuf_rel (a b : TkState) (hR : Rel a b) :
    FbResRel (fillbuf a) (fillbuf b) := by
  obtain ⟨fd, fp, bp, bf, cp, p1, ct, ctp, tks, eo, pa1, hx1, oc1⟩ := a
  obtain ⟨fd2, fp2, bp2, bf2, cp2, p2, ct2, ctp2, tks2, eo2, pa2, hx2, oc2⟩ := b
  obtain ⟨h1, h2, h3, h4, h5, h6, h7, h8, h9, h10, hpar, hoct, hhex⟩ := hR
  dsimp only at h1 h2 h3 h4 h5 h6 h7 h8 h9 h10 ⊢
  subst h1; subst h2; subst h3; subst h4; subst h5; subst h6; subst h7; subst h8
  subst h9; subst h10
  unfold fillbuf
  dsimp only
  split_ifs with hc1 hc2 <;>
    exact ⟨rfl, rfl, rfl, rfl, rfl, rfl, rfl, rfl, rfl, rfl, hpar, hoct, hhex⟩

set_option maxHeartbeats 1000000 in
/-- The `nexttoken` loop sends related states to related results. -/
theorem nexttokenLoop_rel : ∀ (fuel : Nat) (a b : TkState), Rel a b →
    TkResRel (nexttokenLoop fuel a) (nexttokenLoop fuel b) := by
  intro fuel
  induction fuel with
  | zero =>
    intro a b hR
    obtain ⟨h1, h2, h3, h4, h5, h6, h7, h8, h9, h10, hpar, hoct, hhex⟩ := hR
    cases hta : a.tokens with
    | cons t0 rest =>
      rw [nexttokenLoop_pop 0 a t0 rest hta, nexttokenLoop_pop 0 b t0 rest (h9 ▸ hta)]
      exact ⟨rfl, h1, h2, h3, h4, h5, h6, h7, h8, rfl, h10, hpar, hoct, hhex⟩
    | nil =>
      rw [nexttokenLoop_nil_zero a hta, nexttokenLoop_nil_zero b (h9 ▸ hta)]
      exact ⟨rfl, h1, h2, h3, h4, h5, h6, h7, h8, h9, h10, hpar, hoct, hhex⟩
  | succ fuel ih =>
    intro a b hR
    obtain ⟨h1, h2, h3, h4, h5, h6, h7, h8, h9, h10, hpar, hoct, hhex⟩ := hR
    cases hta : a.tokens with
    | cons t0 rest =>
      rw [nexttokenLoop_pop (fuel + 1) a t0 rest hta,
        nexttokenLoop_pop (fuel + 1) b t0 rest (h9 ▸ hta)]
      exact ⟨rfl, h1, h2, h3, h4, h5, h6, h7, h8, rfl, h10, hpar, hoct, hhex⟩
    | nil =>
      rw [nexttokenLoop_nil_succ fuel a hta, nexttokenLoop_nil_succ fuel b (h9 ▸ hta)]
      have hfb := fillbuf_rel a b
        ⟨h1, h2, h3, h4, h5, h6, h7, h8, h9, h10, hpar, hoct, hhex⟩
      cases hfa : fillbuf a with
      | ok a1 =>
        cases hfbb : fillbuf b with
        | eofF b1 =>
          rw [hfa, hfbb] at hfb
          exact hfb.elim
        | ok b1 =>
          rw [hfa, hfbb] at hfb
          have hR1 : Rel a1 b1 := hfb
          dsimp only
          obtain ⟨k1, k2, k3, k4, k5, k6, k7, k8, k9, k10, kpar, koct, khex⟩ := hR1
          rw [← k4, ← k5]
          have hps := parseStep_rel a1.buf a1.charpos a1 b1
            ⟨k1, k2, k3, k4, k5, k6, k7, k8, k9, k10, kpar, koct, khex⟩
          cases hpa : parseStep a1.parse1 a1.buf a1.charpos a1 with
          | ok i2 a2 =>
            cases hpb : parseStep b1.parse1 a1.buf a1.charpos b1 with
            | err e b2 =>
              rw [hpa, hpb] at hps
              exact hps.elim
            | ok i3 b2 =>
              rw [hpa, hpb] at hps
              have hps2 : i2 = i3 ∧ Rel a2 b2 := hps
              obtain ⟨hie, hR2⟩ := hps2
              subst hie
              dsimp only
              obtain ⟨m1, m2, m3, m4, m5, m6, m7, m8, m9, m10, mpar, moct, mhex⟩ := hR2
              exact ih { a2 with charpos := i2 } { b2 with charpos := i2 }
                ⟨m1, m2, m3, m4, rfl, m6, m7, m8, m9, m10, mpar, moct, mhex⟩
          | err e a2 =>
            cases hpb : parseStep b1.parse1 a1.buf a1.charpos b1 with
            | ok i3 b2 =>
              rw [hpa, hpb] at hps
              exact hps.elim
            | err e2 b2 =>
              rw [hpa, hpb] at hps
              have hps2 : e = e2 ∧ Rel a2 b2 := hps
              dsimp only
              exact ⟨hps2.1, hps2.2⟩
      | eofF a1 =>
        cases hfbb : fillbuf b with
        | ok b1 =>
          rw [hfa, hfbb] at hfb
          exact hfb.elim
        | eofF b1 =>
          rw [hfa, hfbb] at hfb
          have hR1 : Rel a1 b1 := hfb
          dsimp only
          obtain ⟨k1, k2, k3, k4, k5, k6, k7, k8, k9, k10, kpar, koct, khex⟩ := hR1
          have hps := parseStep_rel [10] 0 a1 b1
            ⟨k1, k2, k3, k4, k5, k6, k7, k8, k9, k10, kpar, koct, khex⟩
          cases hpa : parseStep a1.parse1 [10] 0 a1 with
          | err e a2 =>
            cases hpb : parseStep b1.parse1 [10] 0 b1 with
            | ok i3 b2 =>
              rw [hpa, hpb] at hps
              exact hps.elim
            | err e2 b2 =>
              rw [hpa, hpb] at hps
              have hps2 : e = e2 ∧ Rel a2 b2 := hps
              dsimp only
              exact ⟨hps2.1, hps2.2⟩
          | ok i2 a2 =>
            cases hpb : parseStep b1.parse1 [10] 0 b1 with
            | err e b2 =>
              rw [hpa, hpb] at hps
              exact hps.elim
            | ok i3 b2 =>
              rw [hpa, hpb] at hps
              have hps2 : i2 = i3 ∧ Rel a2 b2 := hps
              obtain ⟨hie, hR2⟩ := hps2
              subst hie
              dsimp only
              obtain ⟨m1, m2, m3, m4, m5, m6, m7, m8, m9, m10, mpar, moct, mhex⟩ := hR2
              rw [← m9]
              cases hts : a2.tokens with
              | nil =>
                dsimp only
                exact ⟨rfl, m1, m2, m3, m4, rfl, m6, m7, m8, rfl, rfl,
                  mpar, moct, mhex⟩
              | cons t0 rest =>
                dsimp only
                exact ⟨rfl, m1, m2, m3, m4, rfl, m6, m7, m8, rfl, rfl,
                  mpar, moct, mhex⟩

/-- `nexttoken` sends related states to related results. -/
theorem nexttoken_rel (fuel : Nat) (a b : TkState) (hR : Rel a b) :
    TkResRel (nexttoken fuel a) (nexttoken fuel b) := by
  unfold nexttoken
  have h10 : a.eof = b.eof := hR.2.2.2.2.2.2.2.2.2.1
  rw [h10]
  cases hbe : b.eof with
  | true =>
    simp only [if_true]
    exact ⟨rfl, hR⟩
  | false =>
    simp only [Bool.false_eq_true, if_false]
    exact nexttokenLoop_rel fuel a b hR

/-- Related tokenizer states produce identical token sequences. -/
theorem tokenizeAll_rel : ∀ (n fuel : Nat) (a b : TkState), Rel a b →
    tokenizeAll n fuel a = tokenizeAll n fuel b
  | 0, _, _, _, _ => rfl
  | n + 1, fuel, a, b, hR => by
      have hnt := nexttoken_rel fuel a b hR
      show (match nexttoken fuel a with
            | TkRes.tok t st1 => t :: tokenizeAll n fuel st1
            | TkRes.err _ _ => ([] : List (Nat × Token))) =
           (match nexttoken fuel b with
            | TkRes.tok t st1 => t :: tokenizeAll n fuel st1
            | TkRes.err _ _ => ([] : List (Nat × Token)))
      cases hna : nexttoken fuel a with
      | tok t1 st1 =>
        cases hnb : nexttoken fuel b with
        | err e2 st2 =>
          rw [hna, hnb] at hnt
          exact hnt.elim
        | tok t2 st2 =>
          rw [hna, hnb] at hnt
          have hnt2 : t1 = t2 ∧ Rel st1 st2 := hnt
          dsimp only
          rw [hnt2.1]
          exact congrArg (fun l => t2 :: l) (tokenizeAll_rel n fuel st1 st2 hnt2.2)
      | err e1 st1 =>
        cases hnb : nexttoken fuel b with
        | tok t2 st2 =>
          rw [hna, hnb] at hnt
          exact hnt.elim
        | err e2 st2 => rfl

/-- Claim C8: `seek(0)` fully resets the transient tokenizer and stack state
and clears `eof`, so tokenizing again yields exactly the `(position, token)`
sequence produced from a fresh parse of the same input.  (The lazily created
`paren`/`hex`/`oct` attributes are not reset, but they are unobservable from
the reset `Main` state, which the bisimulation `Rel` captures.) -/
theorem C8_seek_replay (sp : SPState) (n fuel : Nat) (T : List (Nat × Token))
    (h : tokenizeAll n fuel (initTk sp.base.fdata) = T) :
    tokenizeAll n fuel (seekSp sp 0).base = T ∧
    (seekSp sp 0).context = [] ∧ (seekSp sp 0).curtype = none ∧
    (seekSp sp 0).curstack = [] ∧ (seekSp sp 0).results = [] ∧
    (seekSp sp 0).base.eof = false := by
  refine ⟨?_, rfl, rfl, rfl, rfl, rfl⟩
  rw [← h]
  exact tokenizeAll_rel n fuel (seekSp sp 0).base (initTk sp.base.fdata)
    ⟨rfl, rfl, rfl, rfl, rfl, rfl, rfl, rfl, rfl, rfl, rfl, rfl, rfl⟩

/-- Witness for C8_seek_replay: replaying the one-token input `[` after a
seek to 0 reproduces the sequence of the fresh parse. -/
theorem C8_witness :
    tokenizeAll 3 10 (seekSp (initSp [91]) 0).base = [(0, Token.kwd [91])] :=
  (C8_seek_replay (initSp [91]) 3 10 [(0, Token.kwd [91])] rfl).1

end PSP